import Mathlib

/-!
Verification of the PyMiniRacer repository: a shallow embedding of the
build script `setup.py` (platform-dependent shared-library naming, the
extension filename computation, the `build_v8` command and the
`build_extensions` error wrapping), together with a model of the
embedding core described by the specification (value bridge, contexts,
scheduling, error taxonomy).
-/

/- ### Platform naming: `MiniRacerBuildExt.get_filename` (setup.py lines 103-110) -/

/-- Embedding of `MiniRacerBuildExt.get_filename`: picks the prefix and
extension of the engine shared library from `os.name` and `sys.platform`. -/
def get_filename (os_name platform : String) : String :=
  if os_name = "posix" ∧ platform = "darwin" then
    "lib" ++ "mini_racer" ++ ".dylib"
  else if platform = "win32" then
    "" ++ "mini_racer" ++ ".dll"
  else
    "lib" ++ "mini_racer" ++ ".so"

/-- C1: the engine shared-library filename is `libmini_racer.dylib` on a
posix darwin system, `mini_racer.dll` on win32, and `libmini_racer.so`
on every other platform. -/
theorem get_filename_cases (os_name platform : String) :
    ((os_name = "posix" ∧ platform = "darwin") →
        get_filename os_name platform = "libmini_racer.dylib")
    ∧ (platform = "win32" → get_filename os_name platform = "mini_racer.dll")
    ∧ (¬(os_name = "posix" ∧ platform = "darwin") → platform ≠ "win32" →
        get_filename os_name platform = "libmini_racer.so") := by
  refine ⟨?_, ?_, ?_⟩
  · intro h
    simp [get_filename, h.1, h.2]
  · intro h
    subst h
    have hne : ¬ (os_name = "posix" ∧ ("win32" : String) = "darwin") := by
      rintro ⟨-, h2⟩
      exact absurd h2 (by decide)
    simp [get_filename, hne]
  · intro h1 h2
    simp [get_filename, h1, h2]

/-- Witness for C1 at the three concrete platform configurations. -/
theorem get_filename_cases_witness :
    get_filename "posix" "darwin" = "libmini_racer.dylib"
    ∧ get_filename "nt" "win32" = "mini_racer.dll"
    ∧ get_filename "posix" "linux" = "libmini_racer.so" :=
  ⟨(get_filename_cases "posix" "darwin").1 ⟨rfl, rfl⟩,
   (get_filename_cases "nt" "win32").2.1 rfl,
   (get_filename_cases "posix" "linux").2.2 (by decide) (by decide)⟩

/- ### Extension filename: `MiniRacerBuildExt.get_ext_filename` (setup.py lines 112-116) -/

/-- Embedding of one step of `os.path.join`: appending component `b` to the
path accumulated so far, with path separator `sep`. -/
def joinTwo (sep : Char) (a b : List Char) : List Char :=
  if b.head? = some sep then b
  else if a = [] ∨ a.getLast? = some sep then a ++ b
  else a ++ sep :: b

/-- Embedding of `os.path.join(first, *rest)`. -/
def ospJoin (sep : Char) (first : List Char) (rest : List (List Char)) : List Char :=
  rest.foldl (joinTwo sep) first

/-- `os.path.join(*comps)` on a non-empty component list. -/
def ospJoinAll (sep : Char) : List (List Char) → List Char
  | [] => []
  | f :: r => ospJoin sep f r

/-- The literal suffix `".so"` appended by `get_ext_filename`. -/
def soExt : List Char := ".so".toList

/-- Embedding of `MiniRacerBuildExt.get_ext_filename`: split the dotted
name on `'.'`, pop the last part, append `".so"` to it, and join all the
parts as path components. The path separator `sep` is the platform's. -/
def get_ext_filename (sep : Char) (name : List Char) : List Char :=
  let parts := name.splitOn '.'
  ospJoinAll sep (parts.dropLast ++ [parts.getLastD [] ++ soExt])

theorem joinTwo_clean (sep : Char) (a b : List Char) (ha : a ≠ [])
    (hla : a.getLast? ≠ some sep) (hhb : b.head? ≠ some sep) :
    joinTwo sep a b = a ++ sep :: b := by
  have : ¬ (a = [] ∨ a.getLast? = some sep) := by
    rintro (h | h)
    · exact ha h
    · exact hla h
  simp [joinTwo, hhb, this]

theorem intercalate_cons_cons' (sep a b : List α) (l : List (List α)) :
    List.intercalate sep (a :: b :: l) = a ++ sep ++ List.intercalate sep (b :: l) := by
  simp [List.intercalate, List.intersperse_cons_cons]

theorem intercalate_single' (sep a : List α) :
    List.intercalate sep [a] = a := by
  simp [List.intercalate]

theorem head?_ne_of_not_mem {b : List Char} {sep : Char} (hb : b ≠ [])
    (hm : sep ∉ b) : b.head? ≠ some sep := by
  cases b with
  | nil => exact absurd rfl hb
  | cons x xs =>
    intro h
    simp only [List.head?_cons, Option.some.injEq] at h
    exact hm (h ▸ List.mem_cons_self x xs)

theorem getLast?_ne_of_not_mem {b : List Char} {sep : Char}
    (hm : sep ∉ b) : b.getLast? ≠ some sep := by
  intro h
  have hmem : sep ∈ b.getLast? := by simp [h]
  have : sep ∈ b := by
    rcases List.mem_getLast?_eq_getLast hmem with ⟨hne, hx⟩
    exact hx ▸ List.getLast_mem hne
  exact hm this

theorem ospJoin_eq_intercalate (sep : Char) :
    ∀ (rest : List (List Char)) (first : List Char), first ≠ [] →
    first.getLast? ≠ some sep →
    (∀ b ∈ rest, b ≠ [] ∧ sep ∉ b) →
    ospJoin sep first rest = List.intercalate [sep] (first :: rest) := by
  intro rest
  induction rest with
  | nil =>
    intro first _ _ _
    simp [ospJoin, intercalate_single']
  | cons b bs ih =>
    intro first hf hfl hall
    obtain ⟨hb, hbm⟩ := hall b (List.mem_cons_self b bs)
    have hstep : joinTwo sep first b = first ++ sep :: b :=
      joinTwo_clean sep first b hf hfl (head?_ne_of_not_mem hb hbm)
    have hrec : ospJoin sep (first ++ sep :: b) bs
        = List.intercalate [sep] ((first ++ sep :: b) :: bs) := by
      refine ih (first ++ sep :: b) (by simp) ?_ ?_
      · rw [List.getLast?_append]
        have h1 : (sep :: b).getLast? = b.getLast? := by
          cases b with
          | nil => exact absurd rfl hb
          | cons y ys => simp [List.getLast?_cons_cons]
        rw [h1]
        have h2 := getLast?_ne_of_not_mem hbm
        cases hlb : b.getLast? with
        | none => exact absurd (List.getLast?_eq_none_iff.mp hlb) hb
        | some z =>
          simp only [Option.or_some]
          intro hcontra
          exact h2 (hlb.trans (by injection hcontra with h; rw [h]))
      · intro c hc
        exact hall c (List.mem_cons_of_mem b hc)
    have hjoin : ospJoin sep first (b :: bs) = ospJoin sep (joinTwo sep first b) bs := rfl
    rw [hjoin, hstep, hrec]
    cases bs with
    | nil =>
      rw [intercalate_single', intercalate_cons_cons', intercalate_single']
      simp
    | cons c cs =>
      rw [intercalate_cons_cons', intercalate_cons_cons', intercalate_cons_cons']
      simp [List.append_assoc]

theorem ospJoinAll_eq_intercalate (sep : Char) (comps : List (List Char))
    (h : ∀ b ∈ comps, b ≠ [] ∧ sep ∉ b) :
    ospJoinAll sep comps = List.intercalate [sep] comps := by
  cases comps with
  | nil => simp [ospJoinAll, List.intercalate]
  | cons f r =>
    obtain ⟨hf, hfm⟩ := h f (List.mem_cons_self f r)
    exact ospJoin_eq_intercalate sep r f hf (getLast?_ne_of_not_mem hfm)
      (fun b hb => h b (List.mem_cons_of_mem f hb))

/-- C8: for every dotted extension name, `get_ext_filename` joins the
dot-separated parts with the platform path separator and appends the
literal suffix `".so"` to the last part, whatever the separator
(platform) is. -/
theorem get_ext_filename_spec (sep : Char) (parts : List (List Char))
    (hne : parts ≠ [])
    (hdot : ∀ l ∈ parts, ('.' : Char) ∉ l)
    (hsep : ∀ l ∈ parts, l ≠ [] ∧ sep ∉ l)
    (hsepext : sep ∉ soExt) :
    get_ext_filename sep (List.intercalate ['.'] parts)
      = List.intercalate [sep] (parts.dropLast ++ [parts.getLastD [] ++ soExt]) := by
  have hsplit : (List.intercalate ['.'] parts).splitOn '.' = parts :=
    List.splitOn_intercalate parts '.' hdot hne
  rw [get_ext_filename]
  simp only [hsplit]
  apply ospJoinAll_eq_intercalate
  intro b hb
  rcases List.mem_append.mp hb with hdrop | hlast
  · exact hsep b (List.dropLast_subset parts hdrop)
  · have hb' : b = parts.getLastD [] ++ soExt := by
      simpa using hlast
    have hg : parts.getLastD [] = parts.getLast hne := by
      rw [List.getLastD_eq_getLast?, List.getLast?_eq_getLast_of_ne_nil hne]
      rfl
    have hmem : parts.getLast hne ∈ parts := List.getLast_mem hne
    obtain ⟨hgn, hgm⟩ := hsep _ hmem
    constructor
    · rw [hb', hg]
      intro hcontra
      have := List.append_eq_nil.mp hcontra
      exact absurd this.2 (by simp [soExt])
    · rw [hb', hg]
      intro hcontra
      rcases List.mem_append.mp hcontra with h | h
      · exact hgm h
      · exact hsepext h

/-- Witness for C8 at the concrete name `"py_mini_racer._v8"` with the
posix separator `'/'`: the result is `"py_mini_racer/_v8.so"`. -/
theorem get_ext_filename_spec_witness :
    get_ext_filename '/' "py_mini_racer._v8".toList = "py_mini_racer/_v8.so".toList := by
  have h := get_ext_filename_spec '/' ["py_mini_racer".toList, "_v8".toList]
    (by decide) (by decide) (by decide) (by decide)
  have h1 : List.intercalate ['.'] ["py_mini_racer".toList, "_v8".toList]
      = "py_mini_racer._v8".toList := by decide
  have h2 : List.intercalate ['/']
      ((["py_mini_racer".toList, "_v8".toList]).dropLast
        ++ [(["py_mini_racer".toList, "_v8".toList]).getLastD [] ++ soExt])
      = "py_mini_racer/_v8.so".toList := by decide
  rw [h1, h2] at h
  exact h

/- ### The `build_v8` command: `MiniRacerBuildV8.run` (setup.py lines 159-175) -/

/-- The ambient state `setup.py` reads: the filesystem predicates backing
`os.path.isfile` / `os.path.isdir`, the output of `python --version`, and
the path helpers `local_path` / `local_path_v8` (the latter imported from
`py_mini_racer.extension.v8_build`, kept abstract here). -/
structure BuildWorld where
  fileIsFile : String → Bool
  dirIsDir : String → Bool
  pythonVersionOutput : String
  localPath : String → String
  localPathV8 : String → String

/-- Embedding of `is_v8_built` (setup.py lines 84-89): every file of
`["libv8_base.a"]` exists under `out/obj/v8` of the local V8 path. -/
def is_v8_built (w : BuildWorld) : Bool :=
  (["libv8_base.a"] : List String).all fun f =>
    w.fileIsFile (w.localPathV8 (String.intercalate "/" ["out", "obj", "v8", f]))

/-- Python `str.strip()`: drop whitespace at both ends. -/
def pyStrip (s : List Char) : List Char :=
  ((s.dropWhile Char.isWhitespace).reverse.dropWhile Char.isWhitespace).reverse

/-- Python `s.startswith(pat)` over character lists. -/
def startsWithChars : List Char → List Char → Bool
  | _, [] => true
  | [], _ :: _ => false
  | c :: cs, p :: ps => c = p && startsWithChars cs ps

/-- Embedding of `check_python_version` (setup.py lines 71-75): the
stripped output of `python --version` starts with `"Python 2.7"`. -/
def check_python_version (w : BuildWorld) : Bool :=
  startsWithChars (pyStrip w.pythonVersionOutput.toList) "Python 2.7".toList

/-- Embedding of `is_depot_tools_checkout` (setup.py lines 78-81). -/
def is_depot_tools_checkout (w : BuildWorld) : Bool :=
  w.dirIsDir (w.localPath "vendor/depot_tools")

/-- The observable side effects `MiniRacerBuildV8.run` can perform. -/
inductive BuildAction where
  | printMsg (s : String)
  | invokePythonVersionCheck
  | gitCloneDepotTools
  | invokeBuildV8 (target : Option String)
deriving DecidableEq

/-- The message of the Exception raised when the python executable is not
Python 2.7 (setup.py lines 165-167). -/
def python27ErrMsg : String :=
  "py_mini_racer cannot build V8 in the current configuration.\n            The V8 build system requires the python executable to be Python 2.7.\n            See also: https://github.com/sqreen/PyMiniRacer#build"

/-- Python `self.target or "v8"`: an empty-string target is falsy. -/
def targetOrV8 : Option String → String
  | none => "v8"
  | some t => if t = "" then "v8" else t

/-- Embedding of `MiniRacerBuildV8.run` (setup.py lines 159-175): returns
the list of performed side effects and either normal termination or the
raised Exception message. -/
def buildV8Run (w : BuildWorld) (target : Option String) :
    List BuildAction × Except String Unit :=
  if (target = none ∨ target = some "v8") ∧ is_v8_built w then
    ([.printMsg "v8 was already built"], .ok ())
  else if ¬ check_python_version w then
    ([.invokePythonVersionCheck], .error python27ErrMsg)
  else if ¬ is_depot_tools_checkout w then
    ([.invokePythonVersionCheck,
      .printMsg "cloning depot tools submodule",
      .gitCloneDepotTools,
      .printMsg ("building " ++ targetOrV8 target),
      .invokeBuildV8 target], .ok ())
  else
    ([.invokePythonVersionCheck,
      .printMsg ("building " ++ targetOrV8 target),
      .invokeBuildV8 target], .ok ())

/-- C9: with a default target (`None` or `"v8"`) and V8 already built,
`run` returns at once: it performs no python-version check, no depot-tools
clone and no V8 build. Otherwise (a rebuild is needed) it raises the
Python-2.7 Exception exactly when `python --version` does not report
Python 2.7. -/
theorem buildV8Run_idempotent_python_gate (w : BuildWorld) (target : Option String) :
    ((target = none ∨ target = some "v8") → is_v8_built w = true →
      buildV8Run w target = ([.printMsg "v8 was already built"], .ok ())
      ∧ BuildAction.invokePythonVersionCheck ∉ (buildV8Run w target).1
      ∧ BuildAction.gitCloneDepotTools ∉ (buildV8Run w target).1
      ∧ (∀ t, BuildAction.invokeBuildV8 t ∉ (buildV8Run w target).1))
    ∧ (¬((target = none ∨ target = some "v8") ∧ is_v8_built w = true) →
        check_python_version w = false →
        (buildV8Run w target).2 = .error python27ErrMsg) := by
  constructor
  · intro ht hb
    have heq : buildV8Run w target = ([.printMsg "v8 was already built"], .ok ()) := by
      simp [buildV8Run, ht, hb]
    refine ⟨heq, ?_, ?_, ?_⟩
    · rw [heq]; simp
    · rw [heq]; simp
    · intro t; rw [heq]; simp
  · intro hnot hpy
    simp [buildV8Run, hnot, hpy]

/-- Witness for C9: a world where V8 is built and the target is default
(first conjunct), and a world where V8 is not built and python is 3.6
(second conjunct). -/
theorem buildV8Run_idempotent_python_gate_witness :
    buildV8Run ⟨fun _ => true, fun _ => true, "Python 2.7.18", id, id⟩ none
      = ([.printMsg "v8 was already built"], .ok ())
    ∧ (buildV8Run ⟨fun _ => false, fun _ => true, "Python 3.6.0", id, id⟩ none).2
      = .error python27ErrMsg :=
  ⟨((buildV8Run_idempotent_python_gate ⟨fun _ => true, fun _ => true, "Python 2.7.18", id, id⟩
      none).1 (Or.inl rfl) (by decide)).1,
   (buildV8Run_idempotent_python_gate ⟨fun _ => false, fun _ => true, "Python 3.6.0", id, id⟩
      none).2 (by simp [is_v8_built]) (by decide)⟩

/- ### `MiniRacerBuildExt.build_extensions` (setup.py lines 118-137) -/

/-- A Python exception value: its type name and its message. -/
structure PyExc where
  ty : String
  msg : String
deriving DecidableEq

/-- Python `repr` of an exception: `Exception('message')`. -/
def reprExc (e : PyExc) : String :=
  e.ty ++ "(\x27" ++ e.msg ++ "\x27)"

/-- The fallible steps of the `try` block of `build_extensions`: whether
the source shared library exists, and the outcomes of the nested
`build_v8` command and of `copy_file`. -/
structure ExtBuildWorld where
  srcIsFile : Bool
  buildV8Outcome : Except PyExc Unit
  copyOutcome : Except PyExc Unit

/-- The `try` block of `build_extensions`: when the source library is
missing, run the `build_v8` command first; then copy the library. -/
def buildExtensionsBody (w : ExtBuildWorld) : Except PyExc Unit :=
  if w.srcIsFile then w.copyOutcome
  else do
    let _ ← w.buildV8Outcome
    w.copyOutcome

/-- The pip-upgrade guidance text of the altered message (setup.py lines
131-135), up to the `%s` placeholder that receives `repr(e)`. -/
def pipGuidanceMsg : String :=
  "py_mini_racer failed to build, ensure you have an up-to-date pip (>= 8.1) to use the wheel instead\n            To update pip: \x27pip install -U pip\x27\n            See also: https://github.com/sqreen/PyMiniRacer#binary-builds-availability\n\n            Original error: "

/-- Embedding of `build_extensions` (setup.py lines 118-137): any
exception from the body is caught and re-raised as a new `Exception`
whose message interpolates `repr` of the original one. -/
def build_extensions (w : ExtBuildWorld) : Except PyExc Unit :=
  match buildExtensionsBody w with
  | .ok _ => .ok ()
  | .error e => .error ⟨"Exception", pipGuidanceMsg ++ reprExc e⟩

set_option maxRecDepth 4000 in
/-- C10: whenever any step of the body fails with exception `e`,
`build_extensions` raises a new `Exception` whose message is the
pip-upgrade guidance text followed by `repr e`, and never re-raises the
original exception unchanged. -/
theorem build_extensions_wraps (w : ExtBuildWorld) (e : PyExc)
    (h : buildExtensionsBody w = .error e) :
    build_extensions w = .error ⟨"Exception", pipGuidanceMsg ++ reprExc e⟩
    ∧ build_extensions w ≠ .error e := by
  constructor
  · simp [build_extensions, h]
  · simp only [build_extensions, h]
    intro hcontra
    have hmsg : pipGuidanceMsg ++ reprExc e = e.msg := congrArg PyExc.msg (Except.error.inj hcontra)
    have hlen : (pipGuidanceMsg ++ reprExc e).length = e.msg.length := congrArg String.length hmsg
    rw [String.length_append] at hlen
    have ha : ("(\x27" : String).length = 2 := by decide
    have hb : ("\x27)" : String).length = 2 := by decide
    have hrepr : (reprExc e).length = e.ty.length + e.msg.length + 4 := by
      simp [reprExc, String.length_append, ha, hb]
      omega
    have hguid : 0 < pipGuidanceMsg.length := by decide
    omega

/-- Witness for C10: a failing `copy_file` with an `IOError` is wrapped. -/
theorem build_extensions_wraps_witness :
    build_extensions ⟨true, .ok (), .error ⟨"IOError", "copy failed"⟩⟩
      = .error ⟨"Exception", pipGuidanceMsg ++ reprExc ⟨"IOError", "copy failed"⟩⟩
    ∧ build_extensions ⟨true, .ok (), .error ⟨"IOError", "copy failed"⟩⟩
      ≠ .error ⟨"IOError", "copy failed"⟩ :=
  build_extensions_wraps ⟨true, .ok (), .error ⟨"IOError", "copy failed"⟩⟩
    ⟨"IOError", "copy failed"⟩ rfl

/- ### The embedding core described by the specification.
The Value Bridge, Context, Execution Supervisor and Lifecycle Manager of
the spec have no source under this repository's build script; the
definitions below are modelled from the specification text. -/

/-- Modelled from the spec: the host-neutral `TaggedValue` discriminated
union of section 3 (the Value Bridge component has no source in the
repository). Doubles carry the engine's native 64-bit representation as
an opaque bit pattern. -/
inductive TaggedValue where
  | null
  | undefined
  | boolean (b : Bool)
  | integer (n : Int)
  | double (bits : Nat)
  | string (s : String)
  | array (elems : List TaggedValue)
  | object (fields : List (String × TaggedValue))
  | function (ref : Nat)
  | date (timestamp : Int)
  | error (kind : String) (message : String) (stack : String)

/-- Modelled from the spec: engine-native values mirrored by the Value
Bridge (no source in the repository). Functions are opaque handles bound
to their owning context. -/
inductive EngineValue where
  | vnull
  | vundef
  | vbool (b : Bool)
  | vint (n : Int)
  | vnum (bits : Nat)
  | vstr (s : String)
  | varr (elems : List EngineValue)
  | vobj (fields : List (String × EngineValue))
  | vfun (handle : Nat)
  | vdate (timestamp : Int)
  | verr (name : String) (message : String) (stack : String)

mutual

/-- Modelled from the spec: `toEngine(TaggedValue) -> EngineValue`
(section 4.1; no source in the repository). -/
def toEngine : TaggedValue → EngineValue
  | .null => .vnull
  | .undefined => .vundef
  | .boolean b => .vbool b
  | .integer n => .vint n
  | .double bits => .vnum bits
  | .string s => .vstr s
  | .array xs => .varr (toEngineList xs)
  | .object fs => .vobj (toEngineFields fs)
  | .function r => .vfun r
  | .date t => .vdate t
  | .error k m s => .verr k m s

/-- Elementwise `toEngine` on array elements. -/
def toEngineList : List TaggedValue → List EngineValue
  | [] => []
  | x :: xs => toEngine x :: toEngineList xs

/-- Elementwise `toEngine` on object fields. -/
def toEngineFields : List (String × TaggedValue) → List (String × EngineValue)
  | [] => []
  | (k, v) :: fs => (k, toEngine v) :: toEngineFields fs

end

mutual

/-- Modelled from the spec: `fromEngine(EngineValue) -> TaggedValue`
(section 4.1; no source in the repository). -/
def fromEngine : EngineValue → TaggedValue
  | .vnull => .null
  | .vundef => .undefined
  | .vbool b => .boolean b
  | .vint n => .integer n
  | .vnum bits => .double bits
  | .vstr s => .string s
  | .varr xs => .array (fromEngineList xs)
  | .vobj fs => .object (fromEngineFields fs)
  | .vfun h => .function h
  | .vdate t => .date t
  | .verr k m s => .error k m s

/-- Elementwise `fromEngine` on array elements. -/
def fromEngineList : List EngineValue → List TaggedValue
  | [] => []
  | x :: xs => fromEngine x :: fromEngineList xs

/-- Elementwise `fromEngine` on object fields. -/
def fromEngineFields : List (String × EngineValue) → List (String × TaggedValue)
  | [] => []
  | (k, v) :: fs => (k, fromEngine v) :: fromEngineFields fs

end

mutual

/-- Modelled from the spec: the comparison of section 8's round-trip law,
structural equality except that Function and Error values are compared by
kind-equivalence (same tag, and for errors the same error kind). -/
def kindEquiv : TaggedValue → TaggedValue → Bool
  | .null, .null => true
  | .undefined, .undefined => true
  | .boolean a, .boolean b => a = b
  | .integer a, .integer b => a = b
  | .double a, .double b => a = b
  | .string a, .string b => a = b
  | .array xs, .array ys => kindEquivList xs ys
  | .object fs, .object gs => kindEquivFields fs gs
  | .function _, .function _ => true
  | .date a, .date b => a = b
  | .error k _ _, .error k' _ _ => k = k'
  | _, _ => false

/-- Elementwise `kindEquiv` on array elements. -/
def kindEquivList : List TaggedValue → List TaggedValue → Bool
  | [], [] => true
  | x :: xs, y :: ys => kindEquiv x y && kindEquivList xs ys
  | _, _ => false

/-- Elementwise `kindEquiv` on object fields. -/
def kindEquivFields : List (String × TaggedValue) → List (String × TaggedValue) → Bool
  | [], [] => true
  | (k, v) :: fs, (k', v') :: gs => k = k' && kindEquiv v v' && kindEquivFields fs gs
  | _, _ => false

end

mutual

theorem fromEngine_toEngine : (v : TaggedValue) → fromEngine (toEngine v) = v
  | .null => rfl
  | .undefined => rfl
  | .boolean _ => rfl
  | .integer _ => rfl
  | .double _ => rfl
  | .string _ => rfl
  | .array xs => by
      simp only [toEngine, fromEngine, fromEngine_toEngine_list xs]
  | .object fs => by
      simp only [toEngine, fromEngine, fromEngine_toEngine_fields fs]
  | .function _ => rfl
  | .date _ => rfl
  | .error _ _ _ => rfl

theorem fromEngine_toEngine_list : (xs : List TaggedValue) →
    fromEngineList (toEngineList xs) = xs
  | [] => rfl
  | x :: xs => by
      simp only [toEngineList, fromEngineList, fromEngine_toEngine x,
        fromEngine_toEngine_list xs]

theorem fromEngine_toEngine_fields : (fs : List (String × TaggedValue)) →
    fromEngineFields (toEngineFields fs) = fs
  | [] => rfl
  | (k, v) :: fs => by
      simp only [toEngineFields, fromEngineFields, fromEngine_toEngine v,
        fromEngine_toEngine_fields fs]

end

mutual

theorem kindEquiv_refl : (v : TaggedValue) → kindEquiv v v = true
  | .null => rfl
  | .undefined => rfl
  | .boolean _ => by simp [kindEquiv]
  | .integer _ => by simp [kindEquiv]
  | .double _ => by simp [kindEquiv]
  | .string _ => by simp [kindEquiv]
  | .array xs => by simp only [kindEquiv, kindEquivList_refl xs]
  | .object fs => by simp only [kindEquiv, kindEquivFields_refl fs]
  | .function _ => rfl
  | .date _ => by simp [kindEquiv]
  | .error _ _ _ => by simp [kindEquiv]

theorem kindEquivList_refl : (xs : List TaggedValue) → kindEquivList xs xs = true
  | [] => rfl
  | x :: xs => by
      simp only [kindEquivList, kindEquiv_refl x, kindEquivList_refl xs, Bool.and_self]

theorem kindEquivFields_refl : (fs : List (String × TaggedValue)) →
    kindEquivFields fs fs = true
  | [] => rfl
  | (k, v) :: fs => by
      simp [kindEquivFields, kindEquiv_refl v, kindEquivFields_refl fs]

end

/-- C2: the round-trip law: for every TaggedValue `v`,
`fromEngine (toEngine v)` equals `v` under the spec's comparison, which is
structural equality relaxed to kind-equivalence on Function and Error
values; numeric payloads (integer, and the double bit pattern) come back
unchanged. -/
theorem roundTrip_law (v : TaggedValue) :
    kindEquiv (fromEngine (toEngine v)) v = true := by
  rw [fromEngine_toEngine v]
  exact kindEquiv_refl v

/- ### Error taxonomy and execution results (spec sections 3 and 7). -/

/-- Modelled from the spec: the error taxonomy of section 7 (the
Execution Supervisor has no source in the repository). -/
inductive ErrorKind where
  | parseError
  | scriptError
  | timeoutError
  | memoryLimitError
  | contextDisposedError
  | encodingError
  | busyError
deriving DecidableEq

/-- Modelled from the spec: a structured error: kind, message and
optional stack (section 3, ExecutionResult). -/
structure StructuredError where
  kind : ErrorKind
  message : String
  stack : Option String
deriving DecidableEq

/-- Modelled from the spec: the engine-level faults an execution can
surface before translation (section 4.3; no source in the repository). -/
inductive EngineFault where
  | parseFailure (message : String)
  | uncaughtException (message stack : String)
  | executionTerminated
  | heapLimitReached
  | isolateDisposed
  | invalidEncoding (message : String)
  | slotBusy
deriving DecidableEq

/-- Modelled from the spec: the Supervisor's translation of engine-level
faults into the error taxonomy (section 4.3 failure semantics). -/
def translateFault : EngineFault → StructuredError
  | .parseFailure m => ⟨.parseError, m, none⟩
  | .uncaughtException m s => ⟨.scriptError, m, some s⟩
  | .executionTerminated => ⟨.timeoutError, "execution timed out", none⟩
  | .heapLimitReached => ⟨.memoryLimitError, "memory limit exceeded", none⟩
  | .isolateDisposed => ⟨.contextDisposedError, "context is disposed", none⟩
  | .invalidEncoding m => ⟨.encodingError, m, none⟩
  | .slotBusy => ⟨.busyError, "context is busy", none⟩

/-- Modelled from the spec: what the engine hands back to the Supervisor
for a finished execution: a raw engine value or a raw engine fault. -/
inductive EngineOutcome where
  | success (v : EngineValue)
  | fault (f : EngineFault)

/-- Modelled from the spec: an `ExecutionResult` is either a TaggedValue
on success or a structured error on failure, never both (section 3). -/
def settleOutcome : EngineOutcome → Except StructuredError TaggedValue
  | .success v => .ok (fromEngine v)
  | .fault f => .error (translateFault f)

/-- Every kind of the taxonomy, as a list. -/
def errorTaxonomy : List ErrorKind :=
  [.parseError, .scriptError, .timeoutError, .memoryLimitError,
   .contextDisposedError, .encodingError, .busyError]

/-- C4: every engine-level fault is translated into exactly one kind of
the taxonomy before crossing the bridge: a settled result is a TaggedValue
exactly when it is not an error, every error it carries is the unique
translation of the underlying fault (no raw engine error escapes), and
its kind belongs to the seven-kind taxonomy. -/
theorem settleOutcome_taxonomy (o : EngineOutcome) :
    ((∃ v, settleOutcome o = .ok v) ↔ ¬ (∃ e, settleOutcome o = .error e))
    ∧ (∀ e, settleOutcome o = .error e →
        e.kind ∈ errorTaxonomy ∧ ∃ f, o = .fault f ∧ e = translateFault f) := by
  constructor
  · constructor
    · rintro ⟨v, hv⟩ ⟨e, he⟩
      rw [hv] at he
      exact Except.noConfusion he
    · intro hne
      cases o with
      | success v => exact ⟨fromEngine v, rfl⟩
      | fault f => exact absurd ⟨translateFault f, rfl⟩ hne
  · intro e he
    cases o with
    | success v => exact Except.noConfusion he
    | fault f =>
      have hef : e = translateFault f := (Except.error.inj he).symm
      refine ⟨?_, f, rfl, hef⟩
      rw [hef]
      cases f <;> simp [translateFault, errorTaxonomy]

/-- Witness for C4 at a concrete fault: a busy slot settles to a
`busyError` structured error, the unique translation of `slotBusy`. -/
theorem settleOutcome_taxonomy_witness :
    (⟨ErrorKind.busyError, "context is busy", none⟩ : StructuredError).kind ∈ errorTaxonomy
    ∧ ∃ f, EngineOutcome.fault .slotBusy = .fault f
        ∧ (⟨ErrorKind.busyError, "context is busy", none⟩ : StructuredError) = translateFault f :=
  (settleOutcome_taxonomy (.fault .slotBusy)).2
    ⟨ErrorKind.busyError, "context is busy", none⟩ rfl

/- ### Contexts, disposal and isolation (spec sections 4.2, 4.4). -/

/-- Modelled from the spec: engine-side global state (`globalThis`) of one
Context, a mapping from global names to values (section 4.2). -/
def GlobalEnv := String → TaggedValue

/-- Modelled from the spec: the deterministic meaning of one source text
or function call run inside a Context: it yields a result value and the
updated global state (sections 4.2 and 5; no engine source in the
repository). -/
structure Script where
  runScript : GlobalEnv → TaggedValue × GlobalEnv

/-- Modelled from the spec: the Lifecycle Manager's per-context state
`{Active, Disposing, Disposed}` (section 4.4). -/
inductive CtxState where
  | active
  | disposing
  | disposed
deriving DecidableEq

/-- Modelled from the spec: a Context: its lifecycle state and its own
isolated global environment (section 3). -/
structure Context where
  state : CtxState
  env : GlobalEnv

/-- Modelled from the spec: the operations a caller can submit to a
Context: `evaluate`, `callFunction`, invoking a function handle bound to
the context, and `dispose` (sections 4.1 and 4.2). -/
inductive CtxOp where
  | evaluate (s : Script)
  | callFunction (ref : Nat) (body : Script)
  | invokeHandle (ref : Nat) (body : Script)
  | dispose

/-- The structured error every post-disposal operation fails with. -/
def disposedError : StructuredError :=
  ⟨.contextDisposedError, "context is disposed", none⟩

/-- Modelled from the spec: running one script-backed operation: it runs
only when the context is Active; on a Disposing or Disposed context it
fails with `ContextDisposedError` and leaves the context unchanged. -/
def runScriptOp (c : Context) (s : Script) : Context × Except StructuredError TaggedValue :=
  if c.state = .active then
    let (v, env2) := s.runScript c.env
    ({ c with env := env2 }, .ok v)
  else
    (c, .error disposedError)

/-- Modelled from the spec: `dispose()` releases the isolate and marks
the context Disposed (section 4.2). -/
def disposeCtx (c : Context) : Context :=
  { c with state := .disposed }

/-- Modelled from the spec: one submitted operation, linearized by the
context's execution slot (section 5 serializes all operations of one
Context; dispose blocks until the slot is free, section 4.4). -/
def applyOp (c : Context) : CtxOp → Context × Except StructuredError TaggedValue
  | .evaluate s => runScriptOp c s
  | .callFunction _ body => runScriptOp c body
  | .invokeHandle _ body => runScriptOp c body
  | .dispose => (disposeCtx c, .ok .undefined)

/-- Running a linearized sequence of operations on a Context, collecting
every result in order. -/
def runOps (c : Context) : List CtxOp → Context × List (Except StructuredError TaggedValue)
  | [] => (c, [])
  | op :: ops =>
    let (c2, r) := applyOp c op
    let (c3, rs) := runOps c2 ops
    (c3, r :: rs)

/-- The result each operation yields on a context that is no longer
Active: `dispose` returns normally, everything else fails. -/
def postDisposalResult : CtxOp → Except StructuredError TaggedValue
  | .dispose => .ok .undefined
  | _ => .error disposedError

theorem applyOp_not_active (c : Context) (op : CtxOp) (h : c.state ≠ .active) :
    applyOp c op = (match op with
      | .dispose => (disposeCtx c, .ok .undefined)
      | _ => (c, .error disposedError)) := by
  cases op <;> simp [applyOp, runScriptOp, h]

theorem applyOp_state_not_active (c : Context) (op : CtxOp) (h : c.state ≠ .active) :
    (applyOp c op).1.state ≠ .active := by
  rw [applyOp_not_active c op h]
  cases op <;> simp [disposeCtx, h]

theorem runOps_not_active (ops : List CtxOp) : ∀ (c : Context), c.state ≠ .active →
    (runOps c ops).2 = ops.map postDisposalResult := by
  induction ops with
  | nil => intro c _; rfl
  | cons op ops ih =>
    intro c h
    have hstep := applyOp_not_active c op h
    have hnext : (applyOp c op).1.state ≠ .active := applyOp_state_not_active c op h
    simp only [runOps, List.map_cons]
    rw [ih (applyOp c op).1 hnext]
    cases op <;> simp [hstep, postDisposalResult]

/-- C3: `dispose()` is idempotent, and after it every subsequent
operation submitted to the context — evaluate, callFunction or invoking a
bound function handle, in any number and order — fails with
`ContextDisposedError` and never succeeds: the result list of any
operation sequence maps every non-dispose operation to that error; an
operation linearized against an in-flight dispose (context in the
Disposing state) fails the same way. -/
theorem dispose_disables_context (c : Context) (ops : List CtxOp) :
    disposeCtx (disposeCtx c) = disposeCtx c
    ∧ (runOps (disposeCtx c) ops).2 = ops.map postDisposalResult
    ∧ (∀ op, op ≠ CtxOp.dispose → postDisposalResult op = .error disposedError)
    ∧ (∀ s, c.state = .disposing →
        (applyOp c (.evaluate s)).2 = .error disposedError) := by
  have hdisp : (disposeCtx c).state ≠ .active := by simp [disposeCtx]
  refine ⟨rfl, runOps_not_active ops (disposeCtx c) hdisp, ?_, ?_⟩
  · intro op hop
    cases op with
    | evaluate s => rfl
    | callFunction r b => rfl
    | invokeHandle r b => rfl
    | dispose => exact absurd rfl hop
  · intro s hs
    simp [applyOp, runScriptOp, hs]

/-- The script that does nothing and returns `undefined`. -/
def idScript : Script := ⟨fun env => (.undefined, env)⟩

/-- The global environment of a freshly created Context: every global is
`undefined` (section 4.2, `create` allocates an isolated heap). -/
def freshEnv : GlobalEnv := fun _ => .undefined

/-- Witness for C3: on a context disposed while it was Disposing, a
subsequent evaluate fails with `ContextDisposedError`, and an evaluate
linearized against the in-flight dispose fails the same way. -/
theorem dispose_disables_context_witness :
    (runOps (disposeCtx ⟨CtxState.disposing, freshEnv⟩) [CtxOp.evaluate idScript]).2
      = [Except.error disposedError]
    ∧ (applyOp ⟨CtxState.disposing, freshEnv⟩ (.evaluate idScript)).2
      = .error disposedError := by
  have h := dispose_disables_context ⟨CtxState.disposing, freshEnv⟩ [CtxOp.evaluate idScript]
  refine ⟨?_, h.2.2.2 idScript rfl⟩
  rw [h.2.1]
  rfl

/- ### Context isolation (spec sections 4.2, 4.4 and 8). -/

/-- Modelled from the spec: the Lifecycle Manager's process-wide registry
mapping context id to Context (section 4.4). -/
structure IsolateWorld where
  registry : Nat → Context

/-- Modelled from the spec: evaluating a script in the context with id
`i`: only that context's entry of the registry changes (contexts never
share heap state, section 4.2). -/
def evalIn (w : IsolateWorld) (i : Nat) (s : Script) :
    IsolateWorld × Except StructuredError TaggedValue :=
  let (c2, r) := runScriptOp (w.registry i) s
  (⟨fun j => if j = i then c2 else w.registry j⟩, r)

/-- Modelled from the spec: the meaning of the source text `"x=1"`-style
assignment: set one global and return the assigned value. -/
def assignScript (x : String) (v : TaggedValue) : Script :=
  ⟨fun env => (v, fun n => if n = x then v else env n)⟩

/-- Modelled from the spec: JavaScript `typeof` on a TaggedValue. -/
def typeofVal : TaggedValue → String
  | .undefined => "undefined"
  | .null => "object"
  | .boolean _ => "boolean"
  | .integer _ => "number"
  | .double _ => "number"
  | .string _ => "string"
  | .array _ => "object"
  | .object _ => "object"
  | .function _ => "function"
  | .date _ => "object"
  | .error _ _ _ => "object"

/-- Modelled from the spec: the meaning of the source text
`"typeof x"`: read one global and return its type name, with no state
change. -/
def typeofScript (x : String) : Script :=
  ⟨fun env => (.string (typeofVal (env x)), env)⟩

/-- A freshly created Context (section 4.2, `create`). -/
def freshContext : Context := ⟨.active, freshEnv⟩

/-- C6: global state mutated in one Context is invisible to every other
Context: evaluating anything in context `i` leaves context `j` untouched
and leaves every later result in context `j` unchanged; concretely, after
`ctx1.evaluate("x=1")`, `ctx2.evaluate("typeof x")` still returns
`"undefined"`, while the same `typeof x` inside `ctx1` sees the
assignment and returns `"number"`. -/
theorem context_isolation (w : IsolateWorld) (i j : Nat) (s t : Script) (hij : i ≠ j) :
    ((evalIn w i s).1.registry j = w.registry j)
    ∧ ((evalIn (evalIn w i s).1 j t).2 = (evalIn w j t).2)
    ∧ (w.registry i = freshContext → w.registry j = freshContext →
        (evalIn (evalIn w i (assignScript "x" (.integer 1))).1 j (typeofScript "x")).2
          = .ok (.string "undefined")
        ∧ (evalIn (evalIn w i (assignScript "x" (.integer 1))).1 i (typeofScript "x")).2
          = .ok (.string "number")) := by
  have hreg : (evalIn w i s).1.registry j = w.registry j := by
    simp [evalIn, Ne.symm hij]
  refine ⟨hreg, ?_, ?_⟩
  · simp [evalIn, Ne.symm hij]
  · intro hi hj
    constructor
    · simp [evalIn, Ne.symm hij, hi, hj, freshContext, runScriptOp, assignScript,
        typeofScript, freshEnv, typeofVal]
    · simp [evalIn, hi, freshContext, runScriptOp, assignScript, typeofScript,
        freshEnv, typeofVal]

/-- Witness for C6: two fresh contexts 0 and 1; an assignment in context
0 is invisible to context 1 and visible to context 0 itself. -/
theorem context_isolation_witness :
    ((evalIn ⟨fun _ => freshContext⟩ 0 idScript).1.registry 1 = freshContext)
    ∧ ((evalIn (evalIn ⟨fun _ => freshContext⟩ 0
          (assignScript "x" (.integer 1))).1 1 (typeofScript "x")).2
        = .ok (.string "undefined")) := by
  have h := context_isolation ⟨fun _ => freshContext⟩ 0 1 idScript (typeofScript "x")
    (by decide)
  exact ⟨h.1, (h.2.2 rfl rfl).1⟩

/- ### Per-context serialization and submission order (spec section 5). -/

/-- Modelled from the spec: one Context's execution slot as the scheduler
sees it: its global state, its FIFO queue of submitted scripts, and the
results delivered so far, in delivery order (section 5). -/
structure CtxQ where
  env : GlobalEnv
  pending : List Script
  delivered : List TaggedValue

/-- Modelled from the spec: the sequential meaning of a Context's queue:
run each script in submission order on the evolving global state and
collect the results (each execution is atomic, section 5). -/
def runSeq : GlobalEnv → List Script → List TaggedValue
  | _, [] => []
  | env, s :: rest =>
    let (v, env2) := s.runScript env
    v :: runSeq env2 rest

/-- Modelled from the spec: one scheduler step: some context `i` whose
queue is non-empty runs its head script to completion, atomically (at
most one execution per context at a time; different contexts are picked
nondeterministically, so there is no cross-context ordering). -/
inductive SchedStep : (Nat → CtxQ) → (Nat → CtxQ) → Prop where
  | runHead (w : Nat → CtxQ) (i : Nat) (s : Script) (rest : List Script)
      (h : (w i).pending = s :: rest) :
      SchedStep w (fun j => if j = i then
          ⟨(s.runScript (w i).env).2, rest,
            (w i).delivered ++ [(s.runScript (w i).env).1]⟩
        else w j)

/-- The reflexive-transitive closure of the scheduler step. -/
inductive SchedReaches : (Nat → CtxQ) → (Nat → CtxQ) → Prop where
  | refl (w : Nat → CtxQ) : SchedReaches w w
  | tail {w1 w2 w3 : Nat → CtxQ} :
      SchedReaches w1 w2 → SchedStep w2 w3 → SchedReaches w1 w3

theorem schedStep_invariant {w w' : Nat → CtxQ} (h : SchedStep w w') (i : Nat) :
    (w' i).delivered ++ runSeq (w' i).env (w' i).pending
      = (w i).delivered ++ runSeq (w i).env (w i).pending := by
  cases h with
  | runHead k s rest hk =>
    by_cases hik : i = k
    · subst hik
      simp only [if_pos rfl]
      rw [hk]
      simp [runSeq, List.append_assoc]
    · simp [hik]

/-- C7: each Context's executions are serialized and delivered in
submission order: along any scheduler run, a context's delivered results
followed by the sequential meaning of its remaining queue is exactly the
sequential meaning of its original queue; in particular once the queue
has drained, the delivered results are precisely the submission-order
results with each execution atomic. (Steps of distinct contexts are
picked nondeterministically: no cross-context ordering is asserted.) -/
theorem sched_submission_order (w0 w : Nat → CtxQ) (h : SchedReaches w0 w) (i : Nat) :
    ((w i).delivered ++ runSeq (w i).env (w i).pending
      = (w0 i).delivered ++ runSeq (w0 i).env (w0 i).pending)
    ∧ ((w0 i).delivered = [] → (w i).pending = [] →
        (w i).delivered = runSeq (w0 i).env (w0 i).pending) := by
  have hmain : (w i).delivered ++ runSeq (w i).env (w i).pending
      = (w0 i).delivered ++ runSeq (w0 i).env (w0 i).pending := by
    induction h with
    | refl => rfl
    | tail hsteps hstep ih =>
      rw [schedStep_invariant hstep i]
      exact ih
  refine ⟨hmain, ?_⟩
  intro h0 hp
  rw [h0, List.nil_append] at hmain
  rw [hp] at hmain
  simpa [runSeq] using hmain

/-- The initial scheduler state of the C7 witness: every context has one
pending `idScript` and nothing delivered. -/
def schedW0 : Nat → CtxQ := fun _ => ⟨freshEnv, [idScript], []⟩

/-- The scheduler state after context 0 runs its head script. -/
def schedW1 : Nat → CtxQ := fun j => if j = 0 then
    ⟨(idScript.runScript (schedW0 0).env).2, [],
      (schedW0 0).delivered ++ [(idScript.runScript (schedW0 0).env).1]⟩
  else schedW0 j

/-- Witness for C7: after the one-step run of context 0's single queued
script, its delivered results equal the sequential submission-order
results of its original queue. -/
theorem sched_submission_order_witness :
    (schedW1 0).delivered = runSeq (schedW0 0).env (schedW0 0).pending := by
  have hstep : SchedStep schedW0 schedW1 :=
    SchedStep.runHead schedW0 0 idScript [] rfl
  have h := sched_submission_order schedW0 schedW1
    (SchedReaches.tail (SchedReaches.refl schedW0) hstep) 0
  exact h.2 rfl rfl

/- ### Depth-bounded, cycle-detecting conversion (spec sections 4.1, 8). -/

/-- Modelled from the spec: an engine-side value graph node: a scalar
leaf, or an array/object whose children are node ids in the engine heap
(objects and arrays can be cyclic through node references). -/
inductive HeapNode where
  | scalar (v : TaggedValue)
  | arr (children : List Nat)
  | obj (fields : List (String × Nat))

/-- Modelled from the spec: the engine heap: node id to node. -/
def Heap := Nat → HeapNode

/-- The child node ids of a heap node. -/
def nodeChildren : HeapNode → List Nat
  | .scalar _ => []
  | .arr cs => cs
  | .obj fs => fs.map Prod.snd

/-- Modelled from the spec: the default conversion depth bound. -/
def defaultConversionDepth : Nat := 100

mutual

/-- Modelled from the spec: Value Bridge conversion of the node `n`
(section 4.1): depth-bounded by `fuel`, detecting cycles via the
identity-visited set `visited` (the node ids on the current path); a
detected cycle or an exhausted depth budget yields an `encodingError`
result instead of looping. -/
def convertNode (hp : Heap) : Nat → List Nat → Nat → Except ErrorKind TaggedValue
  | 0, _, _ => .error .encodingError
  | fuel + 1, visited, n =>
    if n ∈ visited then .error .encodingError
    else
      match hp n with
      | .scalar v => .ok v
      | .arr cs => (convertNodes hp fuel (n :: visited) cs).map TaggedValue.array
      | .obj fs =>
        (convertNodes hp fuel (n :: visited) (fs.map Prod.snd)).map
          (fun vs => TaggedValue.object ((fs.map Prod.fst).zip vs))
termination_by fuel _ _ => (fuel, 0)

/-- Conversion of a list of child nodes, aborting on the first error. -/
def convertNodes (hp : Heap) : Nat → List Nat → List Nat → Except ErrorKind (List TaggedValue)
  | _, _, [] => .ok []
  | fuel, visited, c :: cs =>
    match convertNode hp fuel visited c with
    | .error e => .error e
    | .ok v =>
      match convertNodes hp fuel visited cs with
      | .error e => .error e
      | .ok vs => .ok (v :: vs)
termination_by fuel _ cs => (fuel, cs.length + 1)

end

theorem convertNode_zero (hp : Heap) (visited : List Nat) (n : Nat) :
    convertNode hp 0 visited n = .error .encodingError := by
  rw [convertNode]

theorem convertNode_visited (hp : Heap) (fuel : Nat) (visited : List Nat) (n : Nat)
    (hvis : n ∈ visited) :
    convertNode hp (fuel + 1) visited n = .error .encodingError := by
  rw [convertNode, if_pos hvis]

theorem convertNode_succ_scalar (hp : Heap) (fuel : Nat) (visited : List Nat) (n : Nat)
    (hvis : n ∉ visited) {v : TaggedValue} (hn : hp n = .scalar v) :
    convertNode hp (fuel + 1) visited n = .ok v := by
  rw [convertNode, if_neg hvis, hn]

theorem convertNode_succ_arr (hp : Heap) (fuel : Nat) (visited : List Nat) (n : Nat)
    (hvis : n ∉ visited) {cs : List Nat} (hn : hp n = .arr cs) :
    convertNode hp (fuel + 1) visited n
      = (convertNodes hp fuel (n :: visited) cs).map TaggedValue.array := by
  rw [convertNode, if_neg hvis, hn]

theorem convertNode_succ_obj (hp : Heap) (fuel : Nat) (visited : List Nat) (n : Nat)
    (hvis : n ∉ visited) {fs : List (String × Nat)} (hn : hp n = .obj fs) :
    convertNode hp (fuel + 1) visited n
      = (convertNodes hp fuel (n :: visited) (fs.map Prod.snd)).map
          (fun vs => TaggedValue.object ((fs.map Prod.fst).zip vs)) := by
  rw [convertNode, if_neg hvis, hn]

theorem convertNodes_nil (hp : Heap) (fuel : Nat) (visited : List Nat) :
    convertNodes hp fuel visited [] = .ok [] := by
  rw [convertNodes]

theorem convertNodes_cons (hp : Heap) (fuel : Nat) (visited : List Nat) (c : Nat)
    (cs : List Nat) :
    convertNodes hp fuel visited (c :: cs)
      = match convertNode hp fuel visited c with
        | .error e => .error e
        | .ok v =>
          match convertNodes hp fuel visited cs with
          | .error e => .error e
          | .ok vs => .ok (v :: vs) := by
  rw [convertNodes]

/-- Modelled from the spec: node `b` is a direct child of node `a` in the
heap `hp` (through an array slot or an object field). -/
def childOf (hp : Heap) (a b : Nat) : Prop := b ∈ nodeChildren (hp a)

/-- A walk of the given length through the heap's child edges. -/
inductive Walk (hp : Heap) : Nat → Nat → Nat → Prop where
  | refl (a : Nat) : Walk hp 0 a a
  | head {k : Nat} {a b c : Nat} : childOf hp a b → Walk hp k b c → Walk hp (k + 1) a c

theorem walk_trans {hp : Heap} {i a b : Nat} (h1 : Walk hp i a b) :
    ∀ {j c : Nat}, Walk hp j b c → Walk hp (i + j) a c := by
  induction h1 with
  | refl a =>
    intro j c h2
    rw [Nat.zero_add]
    exact h2
  | @head k a m b hd tl ih =>
    intro j c h2
    have e : (k + 1) + j = (k + j) + 1 := by omega
    rw [e]
    exact Walk.head hd (ih h2)

theorem walk_pump {hp : Heap} {m k : Nat} (h : Walk hp (k + 1) m m) :
    ∀ t, Walk hp (t * (k + 1)) m m := by
  intro t
  induction t with
  | zero =>
    rw [Nat.zero_mul]
    exact Walk.refl m
  | succ t ih =>
    have e : (t + 1) * (k + 1) = t * (k + 1) + (k + 1) := by ring
    rw [e]
    exact walk_trans ih h

theorem convertNodes_ok_mem (hp : Heap) (fuel : Nat) (visited : List Nat) :
    ∀ (cs : List Nat) (vs : List TaggedValue),
    convertNodes hp fuel visited cs = .ok vs →
    ∀ c ∈ cs, ∃ v, convertNode hp fuel visited c = .ok v := by
  intro cs
  induction cs with
  | nil =>
    intro vs _ c hc
    exact absurd hc (List.not_mem_nil c)
  | cons c' cs' ih =>
    intro vs hok c hc
    rw [convertNodes_cons] at hok
    cases hv : convertNode hp fuel visited c' with
    | error e =>
      rw [hv] at hok
      exact Except.noConfusion hok
    | ok v =>
      rw [hv] at hok
      cases hvs : convertNodes hp fuel visited cs' with
      | error e =>
        rw [hvs] at hok
        exact Except.noConfusion hok
      | ok ws =>
        rcases List.mem_cons.mp hc with rfl | hc'
        · exact ⟨v, hv⟩
        · exact ih ws hvs c hc'

theorem convertNode_ok_child {hp : Heap} {fuel : Nat} {visited : List Nat} {n : Nat}
    {v : TaggedValue} (h : convertNode hp (fuel + 1) visited n = .ok v)
    {b : Nat} (hb : childOf hp n b) :
    ∃ w, convertNode hp fuel (n :: visited) b = .ok w := by
  by_cases hvis : n ∈ visited
  · rw [convertNode_visited hp fuel visited n hvis] at h
    exact Except.noConfusion h
  · unfold childOf at hb
    cases hn : hp n with
    | scalar s =>
      rw [hn] at hb
      exact absurd hb (by simp [nodeChildren])
    | arr cs =>
      rw [convertNode_succ_arr hp fuel visited n hvis hn] at h
      rw [hn] at hb
      simp only [nodeChildren] at hb
      cases hcs : convertNodes hp fuel (n :: visited) cs with
      | error e =>
        rw [hcs] at h
        exact Except.noConfusion h
      | ok vs => exact convertNodes_ok_mem hp fuel (n :: visited) cs vs hcs b hb
    | obj fs =>
      rw [convertNode_succ_obj hp fuel visited n hvis hn] at h
      rw [hn] at hb
      simp only [nodeChildren] at hb
      cases hcs : convertNodes hp fuel (n :: visited) (fs.map Prod.snd) with
      | error e =>
        rw [hcs] at h
        exact Except.noConfusion h
      | ok vs =>
        exact convertNodes_ok_mem hp fuel (n :: visited) (fs.map Prod.snd) vs hcs b hb

theorem walk_lt_fuel_of_ok {hp : Heap} {k a b : Nat} (hw : Walk hp k a b) :
    ∀ {fuel : Nat} {visited : List Nat} {v : TaggedValue},
    convertNode hp fuel visited a = .ok v → k < fuel := by
  induction hw with
  | refl a =>
    intro fuel visited v h
    cases fuel with
    | zero =>
      rw [convertNode_zero] at h
      exact Except.noConfusion h
    | succ f => omega
  | @head k a m b hd tl ih =>
    intro fuel visited v h
    cases fuel with
    | zero =>
      rw [convertNode_zero] at h
      exact Except.noConfusion h
    | succ f =>
      rcases convertNode_ok_child h hd with ⟨w, hw'⟩
      have := ih hw'
      omega

theorem convertNodes_ok_or_error (hp : Heap) (fuel : Nat) (visited : List Nat) :
    ∀ (cs : List Nat),
    (∀ c ∈ cs, (∃ v, convertNode hp fuel visited c = .ok v)
        ∨ convertNode hp fuel visited c = .error .encodingError) →
    (∃ vs, convertNodes hp fuel visited cs = .ok vs)
      ∨ convertNodes hp fuel visited cs = .error .encodingError := by
  intro cs
  induction cs with
  | nil =>
    intro _
    exact Or.inl ⟨[], convertNodes_nil hp fuel visited⟩
  | cons c cs' ih =>
    intro hall
    rw [convertNodes_cons]
    rcases hall c (List.mem_cons_self c cs') with ⟨v, hv⟩ | herr
    · rw [hv]
      rcases ih (fun c' hc' => hall c' (List.mem_cons_of_mem c hc')) with ⟨vs, hvs⟩ | herr'
      · rw [hvs]
        exact Or.inl ⟨v :: vs, rfl⟩
      · rw [herr']
        exact Or.inr rfl
    · rw [herr]
      exact Or.inr rfl

theorem convertNode_ok_or_error (hp : Heap) :
    ∀ (fuel : Nat) (visited : List Nat) (n : Nat),
    (∃ v, convertNode hp fuel visited n = .ok v)
      ∨ convertNode hp fuel visited n = .error .encodingError := by
  intro fuel
  induction fuel with
  | zero =>
    intro visited n
    exact Or.inr (convertNode_zero hp visited n)
  | succ f ih =>
    intro visited n
    by_cases hvis : n ∈ visited
    · exact Or.inr (convertNode_visited hp f visited n hvis)
    · cases hn : hp n with
      | scalar s => exact Or.inl ⟨s, convertNode_succ_scalar hp f visited n hvis hn⟩
      | arr cs =>
        rw [convertNode_succ_arr hp f visited n hvis hn]
        rcases convertNodes_ok_or_error hp f (n :: visited) cs
            (fun c _ => ih (n :: visited) c) with ⟨vs, hvs⟩ | herr
        · rw [hvs]
          exact Or.inl ⟨.array vs, rfl⟩
        · rw [herr]
          exact Or.inr rfl
      | obj fs =>
        rw [convertNode_succ_obj hp f visited n hvis hn]
        rcases convertNodes_ok_or_error hp f (n :: visited) (fs.map Prod.snd)
            (fun c _ => ih (n :: visited) c) with ⟨vs, hvs⟩ | herr
        · rw [hvs]
          exact Or.inl ⟨.object ((fs.map Prod.fst).zip vs), rfl⟩
        · rw [herr]
          exact Or.inr rfl

/-- C5: Value Bridge conversion always terminates with a result — for
every heap, depth budget, visited set and root it yields either a
TaggedValue or an `encodingError`, never an infinite loop — and whenever
a cycle is reachable from the root (a cyclic structure), the result is
the `encodingError` error, whatever the depth bound (in particular at the
default bound 100): the cycle is caught by the identity-visited set or by
the depth bound. -/
theorem convert_cycle_detected (hp : Heap) :
    (∀ (fuel : Nat) (visited : List Nat) (n : Nat),
      (∃ v, convertNode hp fuel visited n = .ok v)
        ∨ convertNode hp fuel visited n = .error .encodingError)
    ∧ (∀ (root m i k fuel : Nat) (visited : List Nat),
        Walk hp i root m → Walk hp (k + 1) m m →
        convertNode hp fuel visited root = .error .encodingError) := by
  refine ⟨convertNode_ok_or_error hp, ?_⟩
  intro root m i k fuel visited hreach hcyc
  rcases convertNode_ok_or_error hp fuel visited root with ⟨v, hv⟩ | herr
  · exfalso
    have hlong : Walk hp (i + fuel * (k + 1)) root m :=
      walk_trans hreach (walk_pump hcyc fuel)
    have hlt := walk_lt_fuel_of_ok hlong hv
    have hge : fuel ≤ fuel * (k + 1) := Nat.le_mul_of_pos_right fuel (by omega)
    omega
  · exact herr

/-- The one-node cyclic heap: node 0 is an array containing itself. -/
def cyclicHeap : Heap := fun _ => .arr [0]

/-- Witness for C5: converting the root of the one-node cyclic heap at
the default depth bound yields the `encodingError` result. -/
theorem convert_cycle_detected_witness :
    convertNode cyclicHeap defaultConversionDepth [] 0 = .error .encodingError :=
  (convert_cycle_detected cyclicHeap).2 0 0 0 0 defaultConversionDepth []
    (Walk.refl 0)
    (Walk.head (show childOf cyclicHeap 0 0 by
      simp [childOf, cyclicHeap, nodeChildren]) (Walk.refl 0))
